import Mathlib

/-
Shallow embedding of the obsidian-wikidata-importer core
(src/src/wikidata.ts and src/main.ts, current versions) together with
theorems settling the frozen claims about its specification.

Conventions of the embedding:
* JS strings are Lean Strings, JS `null`/absent cells are `Option`.
* JS numbers produced by parseFloat/parseInt are kept symbolic as the
  lexical source they were parsed from (constructors `floatOf`/`intOf`):
  no claim inspects the numeric value itself, only where it flows.
* The Unicode letter class of the regex /[^\p\x7bL\x7d]/gu is passed in as an
  explicit predicate `letter : Char → Bool`; concrete instances use
  `Char.isAlpha`, which coincides with the Unicode class on the ASCII
  inputs used in witnesses and counterexamples.
* JS truthiness of frontmatter field values is passed in as an explicit
  predicate `tr : FmValue → Bool` (absence is handled separately); the
  merge-policy theorems hold for every such predicate.
-/

namespace WikidataImporter

/-- A value stored in a property mapping.  `str` is a JS string;
`floatOf s` stands for the JS number `parseFloat(s)` and `intOf s` for
`parseInt(s)`, kept symbolic as their lexical source. -/
inductive JsValue : Type where
  | str : String → JsValue
  | floatOf : String → JsValue
  | intOf : String → JsValue
deriving DecidableEq

/-- One binding row of the SPARQL result (json.results.bindings entry),
already projected to the `.value` of each cell; absent cells are `none`.
From src/src/wikidata.ts, Entity.getProperties. -/
structure Row : Type where
  propertyLabel : String
  value : String
  valueLabel : Option String
  valueType : Option String
  normalizedValue : Option String
deriving DecidableEq

/-- GetPropertiesOptions from src/src/wikidata.ts.  The source field
`internalLinkPrefix` is named `linkTemplate` here. -/
structure GetPropertiesOptions : Type where
  language : String
  ignoreCategories : Bool
  ignoreWikipediaPages : Bool
  ignoreIDs : Bool
  ignorePropertiesWithTimeRanges : Bool
  linkTemplate : String
  spaceReplacement : String
deriving DecidableEq

/-- JS truthiness of a string-or-null variable: null and the empty
string are falsy. -/
def optStrTruthy : Option String → Bool
  | some s => s.length != 0
  | none => false

/-- isString from src/src/wikidata.ts (null check included). -/
def isString (t : Option String) : Bool :=
  match t with
  | none => false
  | some s =>
      s == "http://www.w3.org/2001/XMLSchema#string" ||
      s == "http://www.w3.org/1999/02/22-rdf-syntax-ns#langString"

/-- isInteger from src/src/wikidata.ts. -/
def isInteger (t : Option String) : Bool :=
  match t with
  | none => false
  | some s => s == "http://www.w3.org/2001/XMLSchema#integer"

/-- isDecimal from src/src/wikidata.ts. -/
def isDecimal (t : Option String) : Bool :=
  match t with
  | none => false
  | some s => s == "http://www.w3.org/2001/XMLSchema#decimal"

/-- isDate from src/src/wikidata.ts. -/
def isDate (t : Option String) : Bool :=
  match t with
  | none => false
  | some s => s == "http://www.w3.org/2001/XMLSchema#dateTime"

/-- JS word character, the \w class of the regex engine:
[A-Za-z0-9_]. -/
def isWordChar (c : Char) : Bool := c.isAlphanum || c == '_'

/-- Scanner for the regex /\bID\b/: looks for the substring "ID" with a
word boundary on both sides; `prev` is the character just before the
current scan position. -/
def hasWordIDAux (prev : Option Char) : List Char → Bool
  | [] => false
  | c :: rest =>
      (c == 'I' &&
        (match rest with
         | 'D' :: rest2 =>
             (match prev with
              | some p => !isWordChar p
              | none => true) &&
             (match rest2 with
              | d :: _ => !isWordChar d
              | [] => true)
         | _ => false))
      || hasWordIDAux (some c) rest

/-- key.match(/\bID\b/) from src/src/wikidata.ts, as a Boolean. -/
def hasWordID (s : String) : Bool := hasWordIDAux none s.data

/-- The category filter guard of Entity.getProperties:
opts.ignoreCategories && valueLabel && valueLabel.startsWith("Category:"). -/
def catDrop (opts : GetPropertiesOptions) (r : Row) : Bool :=
  opts.ignoreCategories && optStrTruthy r.valueLabel &&
    (r.valueLabel.getD "").startsWith "Category:"

/-- The Wikipedia-page filter guard of Entity.getProperties:
opts.ignoreWikipediaPages && valueLabel && valueLabel.startsWith("Wikipedia:"). -/
def wikiDrop (opts : GetPropertiesOptions) (r : Row) : Bool :=
  opts.ignoreWikipediaPages && optStrTruthy r.valueLabel &&
    (r.valueLabel.getD "").startsWith "Wikipedia:"

/-- The ID filter guard of Entity.getProperties:
opts.ignoreIDs && valueLabel && key.match(/\bID\b/). -/
def idDrop (opts : GetPropertiesOptions) (r : Row) : Bool :=
  opts.ignoreIDs && optStrTruthy r.valueLabel && hasWordID r.propertyLabel

/-- result.replace(new RegExp("\\" + searchChar, "g"), replaceChar):
global replacement of one literal character (the replacement text is not
rescanned within one call). -/
def charReplaceAll (s : String) (searchChar : Char) (rep : List Char) : String :=
  String.mk (s.data.flatMap (fun c => if c == searchChar then rep else [c]))

/-- Entity.replaceCharacters from src/src/wikidata.ts: for each index i
into searchString, globally replace that character by
replaceString[min(i, replaceString.length - 1)].  When replaceString is
empty the JS index is -1, the lookup yields undefined, and the
replacement text is the string "undefined". -/
def replaceCharacters (str searchString replaceString : String) : String :=
  (List.range searchString.length).foldl
    (fun result i =>
      let searchChar := searchString.data.getD i ' '
      let rep : List Char :=
        if replaceString.length = 0 then "undefined".data
        else [replaceString.data.getD (min i (replaceString.length - 1)) ' ']
      charReplaceAll result searchChar rep)
    str

/-- Fueled scanner for String.prototype.replace with a global literal
pattern: leftmost match, non-overlapping, the substituted text is not
rescanned.  The fuel is instantiated with the subject length, which
suffices for a non-empty pattern. -/
def raAux (pat rep : List Char) : Nat → List Char → List Char
  | _, [] => []
  | 0, l => l
  | n + 1, c :: rest =>
      if pat.isPrefixOf (c :: rest) then
        rep ++ raAux pat rep n (List.drop pat.length (c :: rest))
      else c :: raAux pat rep n rest

/-- Global replacement of the literal substring `pat` by `rep` in `s`
(the JS replace calls in Entity.buildLink; the labels substituted in by
the claims contain no dollar patterns). -/
def strReplaceAll (s pat rep : String) : String :=
  String.mk (raAux pat.data rep.data s.data.length s.data)

/-- Entity.buildLink from src/src/wikidata.ts: sanitize the label with
replaceCharacters, then substitute every occurrence of the literal
placeholder "$\x7blabel\x7d" and then of "$\x7bid\x7d" in the template. -/
def buildLink (link label id : String) : String :=
  let label2 := replaceCharacters label "*/:#?<>\"" "_"
  strReplaceAll (strReplaceAll link "$\x7blabel\x7d" label2) "$\x7bid\x7d" id

/-- The maximal trailing run of ASCII digits of a string
(value.match(/\d+$/)![0]). -/
def trailingDigits (s : String) : String :=
  String.mk ((s.data.reverse.takeWhile Char.isDigit).reverse)

/-- value.match(/Q\d+$/) as a Boolean: at least one trailing digit,
preceded immediately by the letter Q, at the end of the string. -/
def endsQId (s : String) : Bool :=
  let ds := s.data.reverse.takeWhile Char.isDigit
  (ds.length != 0) &&
    (match s.data.reverse.drop ds.length with
     | c :: _ => c == 'Q'
     | [] => false)

/-- The value-resolution chain of Entity.getProperties, from
`let toAdd: Value | null = valueLabel` through the if/else-if ladder;
`none` is the JS null that later drops the row. -/
def resolveValue (opts : GetPropertiesOptions) (r : Row) : Option JsValue :=
  if optStrTruthy r.normalizedValue then
    some (JsValue.str (r.normalizedValue.getD ""))
  else if isDate r.valueType then some (JsValue.str r.value)
  else if isDecimal r.valueType then some (JsValue.floatOf r.value)
  else if isInteger r.valueType then some (JsValue.intOf r.value)
  else if isString r.valueType then some (JsValue.str r.value)
  else if endsQId r.value && optStrTruthy r.valueLabel then
    some (JsValue.str
      ("[[" ++ buildLink opts.linkTemplate (r.valueLabel.getD "") (trailingDigits r.value) ++ "]]"))
  else
    match r.valueLabel with
    | some s => some (JsValue.str s)
    | none => none

/-- key.replace(/[^\p\x7bL\x7d]/gu, opts.spaceReplacement): each character
outside the letter class is replaced, left to right, by one full copy of
the replacement string. -/
def regexReplaceChars (letter : Char → Bool) (rep : String) : List Char → List Char
  | [] => []
  | c :: rest =>
      (if letter c then [c] else rep.data) ++ regexReplaceChars letter rep rest

/-- The property-name rewrite of Entity.getProperties: applied only when
opts.spaceReplacement is a non-empty string. -/
def rewriteKey (letter : Char → Bool) (opts : GetPropertiesOptions) (key : String) : String :=
  if opts.spaceReplacement.length > 0 then
    String.mk (regexReplaceChars letter opts.spaceReplacement key.data)
  else key

/-- ret[key] ? ret[key].push(v) : ret[key] = [v] on an insertion-ordered
object, as an association list: append to the existing entry, or add a
new singleton entry at the end. -/
def addValue : List (String × List JsValue) → String → JsValue → List (String × List JsValue)
  | [], k, v => [(k, [v])]
  | (k2, l) :: rest, k, v =>
      if k2 == k then (k2, l ++ [v]) :: rest
      else (k2, l) :: addValue rest k v

/-- The body of the results.forEach callback of Entity.getProperties:
filters in source order, then the key rewrite, then value resolution,
then the null check, then accumulation. -/
def processRow (letter : Char → Bool) (opts : GetPropertiesOptions)
    (acc : List (String × List JsValue)) (r : Row) : List (String × List JsValue) :=
  if catDrop opts r then acc
  else if wikiDrop opts r then acc
  else if idDrop opts r then acc
  else
    match resolveValue opts r with
    | none => acc
    | some v => addValue acc (rewriteKey letter opts r.propertyLabel) v

/-- Entity.getProperties restricted to its pure core: fold the row list
into the initially empty mapping. -/
def getProperties (letter : Char → Bool) (opts : GetPropertiesOptions)
    (rows : List Row) : List (String × List JsValue) :=
  rows.foldl (processRow letter opts) []

/-- Lookup in the association-list model of a JS object. -/
def aLookup : List (String × List JsValue) → String → Option (List JsValue)
  | [], _ => none
  | (k2, l) :: rest, k => if k2 == k then some l else aLookup rest k

/-- A value held in a frontmatter field after the merge: the collapse
`value.length === 1 ? value[0] : value` stores either a scalar or the
full list. -/
inductive FmValue : Type where
  | scalar : JsValue → FmValue
  | list : List JsValue → FmValue
deriving DecidableEq

/-- The document frontmatter, extensionally: a partial map from field
names to values (`none` is an absent field). -/
def Fm : Type := String → Option FmValue

/-- The merge-relevant settings of src/main.ts. -/
structure MergeSettings : Type where
  entityIdKey : String
  overwriteExistingProperties : Bool
  allowedProperties : List String
  blockedProperties : List String
deriving DecidableEq

/-- Array.prototype.includes as a Boolean. -/
def listHas (l : List String) (k : String) : Bool := l.any (fun x => x == k)

/-- The skip condition of the filtering loop in syncEntityToFile
(src/main.ts): (allowedProperties?.length && !allowedProperties.includes(key))
|| (blockedProperties?.length && blockedProperties.includes(key)). -/
def skipKey (s : MergeSettings) (key : String) : Bool :=
  (s.allowedProperties.length != 0 && !listHas s.allowedProperties key) ||
  (s.blockedProperties.length != 0 && listHas s.blockedProperties key)

/-- The filteredProperties list built by the first loop of
syncEntityToFile: the keys of the fetched mapping, in order, that are
not skipped. -/
def filteredProps (s : MergeSettings) (properties : List (String × List JsValue)) :
    List String :=
  (properties.filter (fun p => !skipKey s p.1)).map Prod.fst

/-- value.length === 1 ? value[0] : value. -/
def collapse : List JsValue → FmValue
  | [v] => FmValue.scalar v
  | l => FmValue.list l

/-- frontmatter[key] = v. -/
def setKey (fm : Fm) (k : String) (v : FmValue) : Fm :=
  fun k2 => if k2 = k then some v else fm k2

/-- JS truthiness of an optional field value, given the truthiness
predicate `tr` on present values; an absent field is falsy. -/
def optTruthy (tr : FmValue → Bool) : Option FmValue → Bool
  | some v => tr v
  | none => false

/-- Truthiness of frontmatter[key] (the test !frontmatter[key] in
syncEntityToFile is its negation). -/
def fieldTruthy (tr : FmValue → Bool) (fm : Fm) (k : String) : Bool :=
  optTruthy tr (fm k)

/-- One iteration of the processFrontMatter loop of syncEntityToFile:
only keys in filteredProperties are written; with overwrite on, always;
with overwrite off, only when the field is currently falsy/absent. -/
def writeStep (tr : FmValue → Bool) (s : MergeSettings) (filtered : List String)
    (fm : Fm) (p : String × List JsValue) : Fm :=
  if listHas filtered p.1 then
    if s.overwriteExistingProperties then setKey fm p.1 (collapse p.2)
    else if fieldTruthy tr fm p.1 then fm
    else setKey fm p.1 (collapse p.2)
  else fm

/-- The Merge Policy: the processFrontMatter callback of
syncEntityToFile (src/main.ts lines 374-388) — write the filtered
fetched properties subject to the overwrite rule, then unconditionally
stamp frontmatter[entityIdKey] = entity.id. -/
def mergeProperties (tr : FmValue → Bool) (s : MergeSettings) (entityId : String)
    (properties : List (String × List JsValue)) (fm : Fm) : Fm :=
  let filtered := filteredProps s properties
  let fm1 := properties.foldl (writeStep tr s filtered) fm
  setKey fm1 s.entityIdKey (FmValue.scalar (JsValue.str entityId))

/-- An entity summary as delivered by the search endpoint. -/
structure EntityJson : Type where
  id : String
  label : Option String
  description : Option String
deriving DecidableEq

/-- The Entity value object of src/src/wikidata.ts. -/
structure Entity : Type where
  id : String
  label : Option String
  description : Option String
deriving DecidableEq

/-- Entity.fromJson. -/
def Entity.fromJson (j : EntityJson) : Entity := ⟨j.id, j.label, j.description⟩

/-- The parameters of one wbsearchentities lookup request (the HTTP
transport itself is an external collaborator). -/
structure SearchRequest : Type where
  language : String
  uselang : String
  search : String
deriving DecidableEq

/-- The payload of a search response. -/
structure SearchResponse : Type where
  search : List EntityJson
deriving DecidableEq

/-- SearchOptions of src/src/wikidata.ts. -/
structure SearchOptions : Type where
  language : String
deriving DecidableEq

/-- The lookup requests Entity.search issues for a query: none for an
empty query, otherwise exactly one, carrying opts.language verbatim as
both the language and uselang parameters. -/
def Entity.searchRequests (query : String) (opts : SearchOptions) : List SearchRequest :=
  if query.length = 0 then []
  else [⟨opts.language, opts.language, query⟩]

/-- Entity.search from src/src/wikidata.ts, with the HTTP layer as an
oracle from request parameters to the parsed response. -/
def Entity.search (transport : SearchRequest → SearchResponse)
    (query : String) (opts : SearchOptions) : List Entity :=
  if query.length = 0 then []
  else ((transport ⟨opts.language, opts.language, query⟩).search).map Entity.fromJson

/-- Splitting a character list on the comma character; `cur` holds the
current segment, reversed. -/
def splitCommaAux : List Char → List Char → List String
  | [], cur => [String.mk cur.reverse]
  | c :: rest, cur =>
      if c == ',' then String.mk cur.reverse :: splitCommaAux rest []
      else splitCommaAux rest (c :: cur)

/-- The comma-separated language codes of a language specification (used
only to state how many codes a specification contains). -/
def langCodes (s : String) : List String := splitCommaAux s.data []

/-- The sub-list of fetched value lists that the merge loop considers
for one fixed key: the entries of the mapping at that key that pass the
filteredProperties test, in order. -/
def entriesAt (filtered : List String) (k : String)
    (props : List (String × List JsValue)) : List (List JsValue) :=
  (props.filter (fun p => p.1 == k && listHas filtered p.1)).map Prod.snd

/-- The overwrite-disabled write sequence on a single field: each entry
writes its collapsed value only when the field is currently falsy. -/
def writeSeq (tr : FmValue → Bool) : List (List JsValue) → Option FmValue → Option FmValue
  | [], x => x
  | v :: es, x => writeSeq tr es (if optTruthy tr x then x else some (collapse v))

theorem listHas_iff (l : List String) (k : String) : listHas l k = true ↔ k ∈ l := by
  simp only [listHas, List.any_eq_true, beq_iff_eq]
  exact ⟨fun ⟨x, hx, he⟩ => he ▸ hx, fun h => ⟨k, h, rfl⟩⟩

theorem writeStep_apply (tr : FmValue → Bool) (s : MergeSettings) (filtered : List String)
    (fm : Fm) (p : String × List JsValue) (k : String) :
    writeStep tr s filtered fm p k =
      if (p.1 == k && listHas filtered p.1) = true then
        (if s.overwriteExistingProperties then some (collapse p.2)
         else if optTruthy tr (fm k) then fm k else some (collapse p.2))
      else fm k := by
  by_cases hc : listHas filtered p.1 = true
  · by_cases hpk : p.1 = k
    · subst hpk
      by_cases ho : s.overwriteExistingProperties = true
      · simp [writeStep, hc, ho, setKey]
      · rw [Bool.not_eq_true] at ho
        by_cases ht : optTruthy tr (fm p.1) = true
        · simp [writeStep, hc, ho, setKey, fieldTruthy, ht]
        · rw [Bool.not_eq_true] at ht
          simp [writeStep, hc, ho, setKey, fieldTruthy, ht]
    · have hb : (p.1 == k) = false := beq_eq_false_iff_ne.mpr hpk
      have hnk : k ≠ p.1 := fun he => hpk he.symm
      by_cases ho : s.overwriteExistingProperties = true
      · simp [writeStep, hc, ho, setKey, hb, hnk]
      · rw [Bool.not_eq_true] at ho
        by_cases ht : fieldTruthy tr fm p.1 = true
        · simp [writeStep, hc, ho, setKey, hb, hnk, ht]
        · rw [Bool.not_eq_true] at ht
          simp [writeStep, hc, ho, setKey, hb, hnk, ht]
  · rw [Bool.not_eq_true] at hc
    simp [writeStep, hc]

theorem foldl_writeStep_not_mem (tr : FmValue → Bool) (s : MergeSettings)
    (filtered : List String) :
    ∀ (props : List (String × List JsValue)) (fm : Fm) (k : String),
      listHas filtered k = false →
      props.foldl (writeStep tr s filtered) fm k = fm k := by
  intro props
  induction props with
  | nil => intro fm k _; rfl
  | cons p rest ih =>
    intro fm k h
    rw [List.foldl_cons, ih _ _ h, writeStep_apply]
    by_cases hpk : p.1 = k
    · rw [hpk, h]
      simp
    · simp [beq_eq_false_iff_ne.mpr hpk]

theorem foldl_writeStep_apply (tr : FmValue → Bool) (s : MergeSettings)
    (filtered : List String) (hov : s.overwriteExistingProperties = false) :
    ∀ (props : List (String × List JsValue)) (fm : Fm) (k : String),
      props.foldl (writeStep tr s filtered) fm k =
        writeSeq tr (entriesAt filtered k props) (fm k) := by
  intro props
  induction props with
  | nil => intro fm k; rfl
  | cons p rest ih =>
    intro fm k
    rw [List.foldl_cons, ih, writeStep_apply, hov]
    unfold entriesAt
    rw [List.filter_cons]
    by_cases h1 : (p.1 == k && listHas filtered p.1) = true
    · rw [if_pos h1, if_pos h1, List.map_cons]
      rfl
    · rw [if_neg h1, if_neg h1]

theorem writeSeq_truthy (tr : FmValue → Bool) :
    ∀ (es : List (List JsValue)) (x : Option FmValue),
      optTruthy tr x = true → writeSeq tr es x = x := by
  intro es
  induction es with
  | nil => intro x _; rfl
  | cons v rest ih =>
    intro x h
    rw [writeSeq, if_pos h]
    exact ih x h

theorem writeSeq_idem (tr : FmValue → Bool) :
    ∀ (es : List (List JsValue)) (x : Option FmValue),
      writeSeq tr es (writeSeq tr es x) = writeSeq tr es x := by
  intro es
  induction es with
  | nil => intro x; rfl
  | cons v rest ih =>
    intro x
    show writeSeq tr rest
        (if optTruthy tr (writeSeq tr (v :: rest) x) = true then writeSeq tr (v :: rest) x
         else some (collapse v))
      = writeSeq tr (v :: rest) x
    by_cases hy : optTruthy tr (writeSeq tr (v :: rest) x) = true
    · rw [if_pos hy]
      show writeSeq tr rest
          (writeSeq tr rest (if optTruthy tr x = true then x else some (collapse v)))
        = writeSeq tr (v :: rest) x
      exact ih _
    · rw [if_neg hy]
      by_cases hx : optTruthy tr x = true
      · exfalso
        apply hy
        have he : writeSeq tr (v :: rest) x = x := by
          show writeSeq tr rest (if optTruthy tr x = true then x else some (collapse v)) = x
          rw [if_pos hx]
          exact writeSeq_truthy tr rest x hx
        rw [he]
        exact hx
      · show writeSeq tr rest (some (collapse v))
          = writeSeq tr rest (if optTruthy tr x = true then x else some (collapse v))
        rw [if_neg hx]

/-- Claim C2: with overwrite disabled, applying the Merge Policy twice
with the same fetched mapping yields the same final metadata as applying
it once — the second application writes nothing new for keys already set
by the first, and the entity-identifier field is re-stamped with the
identical value.  Holds for every truthiness predicate on field values. -/
theorem mergeProperties_idempotent (tr : FmValue → Bool) (s : MergeSettings)
    (entityId : String) (properties : List (String × List JsValue)) (fm : Fm)
    (hov : s.overwriteExistingProperties = false) :
    mergeProperties tr s entityId properties (mergeProperties tr s entityId properties fm)
      = mergeProperties tr s entityId properties fm := by
  funext k
  by_cases hk : k = s.entityIdKey
  · subst hk
    simp [mergeProperties, setKey]
  · simp only [mergeProperties, setKey, if_neg hk,
      foldl_writeStep_apply tr s (filteredProps s properties) hov]
    exact writeSeq_idem tr _ _

def trueTr : FmValue → Bool := fun _ => true

def fmEmpty : Fm := fun _ => none

def settingsC2 : MergeSettings := ⟨"wikidata entity id", false, [], []⟩

def propsC2 : List (String × List JsValue) := [("population", [JsValue.str "8"])]

theorem mergeProperties_idempotent_witness :
    mergeProperties trueTr settingsC2 "Q42" propsC2
        (mergeProperties trueTr settingsC2 "Q42" propsC2 fmEmpty)
      = mergeProperties trueTr settingsC2 "Q42" propsC2 fmEmpty :=
  mergeProperties_idempotent trueTr settingsC2 "Q42" propsC2 fmEmpty rfl

/-- Claim C3: a key that a non-empty allow-list omits, or that a
non-empty block-list contains — in particular a key present in both
lists — is excluded from the import: the merge leaves the metadata at
that key untouched (the identifier field excepted, which is stamped
regardless of filtering).  Holds for every overwrite flag. -/
theorem mergeProperties_excludes_key (tr : FmValue → Bool) (s : MergeSettings)
    (entityId : String) (properties : List (String × List JsValue)) (fm : Fm)
    (key : String) (hk : key ≠ s.entityIdKey)
    (h : (s.allowedProperties ≠ [] ∧ key ∉ s.allowedProperties) ∨
         (s.blockedProperties ≠ [] ∧ key ∈ s.blockedProperties)) :
    mergeProperties tr s entityId properties fm key = fm key := by
  have hskip : skipKey s key = true := by
    rcases h with ⟨hne, hnin⟩ | ⟨hne, hin⟩
    · have h1 : (s.allowedProperties.length != 0) = true := by
        simp [List.length_eq_zero, hne]
      have h2 : listHas s.allowedProperties key = false := by
        rw [Bool.eq_false_iff]
        intro hc
        exact hnin ((listHas_iff _ _).mp hc)
      simp [skipKey, h1, h2]
    · have h1 : (s.blockedProperties.length != 0) = true := by
        simp [List.length_eq_zero, hne]
      have h2 : listHas s.blockedProperties key = true := (listHas_iff _ _).mpr hin
      simp [skipKey, h1, h2]
  have hnot : listHas (filteredProps s properties) key = false := by
    rw [Bool.eq_false_iff]
    intro hc
    have hmem := (listHas_iff _ _).mp hc
    simp only [filteredProps, List.mem_map, List.mem_filter] at hmem
    obtain ⟨p, ⟨_, hskipf⟩, hpk⟩ := hmem
    rw [hpk, hskip] at hskipf
    simp at hskipf
  simp only [mergeProperties, setKey, if_neg hk]
  exact foldl_writeStep_not_mem tr s _ properties fm key hnot

def settingsC3 : MergeSettings :=
  ⟨"wikidata entity id", false, ["area", "blocked key"], ["blocked key"]⟩

theorem mergeProperties_excludes_key_witness :
    mergeProperties trueTr settingsC3 "Q42" [("blocked key", [JsValue.str "v"])]
        fmEmpty "blocked key"
      = fmEmpty "blocked key" :=
  mergeProperties_excludes_key trueTr settingsC3 "Q42"
    [("blocked key", [JsValue.str "v"])] fmEmpty "blocked key" (by decide)
    (Or.inr ⟨by decide, by decide⟩)

/-- Claim C4: for every fetched mapping, every initial metadata, and
every configuration (any overwrite flag, any allow-list, any
block-list), the resulting metadata maps the configured
entity-identifier field to the canonical entity identifier — even when
every property key was filtered out and even when no identifier field
existed before. -/
theorem mergeProperties_stamps_entity_id (tr : FmValue → Bool) (s : MergeSettings)
    (entityId : String) (properties : List (String × List JsValue)) (fm : Fm) :
    mergeProperties tr s entityId properties fm s.entityIdKey
      = some (FmValue.scalar (JsValue.str entityId)) := by
  simp [mergeProperties, setKey]

/-- The contribution of one result row: `none` when the row is dropped
(by a filter or a null resolved value), otherwise the rewritten key and
the resolved value. -/
def contribution (letter : Char → Bool) (opts : GetPropertiesOptions) (r : Row) :
    Option (String × JsValue) :=
  if catDrop opts r || wikiDrop opts r || idDrop opts r then none
  else
    match resolveValue opts r with
    | none => none
    | some v => some (rewriteKey letter opts r.propertyLabel, v)

/-- The values contributed to one key, in row order. -/
def contributionsAt (letter : Char → Bool) (opts : GetPropertiesOptions)
    (rows : List Row) (k : String) : List JsValue :=
  ((rows.filterMap (contribution letter opts)).filter (fun p => p.1 == k)).map Prod.snd

theorem processRow_eq_contribution (letter : Char → Bool) (opts : GetPropertiesOptions)
    (acc : List (String × List JsValue)) (r : Row) :
    processRow letter opts acc r =
      (match contribution letter opts r with
       | none => acc
       | some p => addValue acc p.1 p.2) := by
  unfold processRow contribution
  by_cases h1 : catDrop opts r = true
  · simp [h1]
  · rw [Bool.not_eq_true] at h1
    by_cases h2 : wikiDrop opts r = true
    · simp [h1, h2]
    · rw [Bool.not_eq_true] at h2
      by_cases h3 : idDrop opts r = true
      · simp [h1, h2, h3]
      · rw [Bool.not_eq_true] at h3
        simp only [h1, h2, h3, Bool.or_self, Bool.or_false, Bool.false_or,
          Bool.false_eq_true, if_neg, if_false]
        cases resolveValue opts r <;> simp

theorem aLookup_addValue :
    ∀ (acc : List (String × List JsValue)) (k : String) (v : JsValue) (k2 : String),
      aLookup (addValue acc k v) k2 =
        if k2 = k then
          (match aLookup acc k2 with
           | some l => some (l ++ [v])
           | none => some [v])
        else aLookup acc k2 := by
  intro acc
  induction acc with
  | nil =>
    intro k v k2
    by_cases h : k2 = k
    · subst h
      simp [addValue, aLookup]
    · have hb : (k == k2) = false := beq_eq_false_iff_ne.mpr (fun he => h he.symm)
      simp [addValue, aLookup, hb, h]
  | cons hd rest ih =>
    intro k v k2
    obtain ⟨k3, l⟩ := hd
    by_cases h3 : k3 = k
    · subst h3
      simp only [addValue, beq_self_eq_true, if_pos]
      by_cases h : k2 = k3
      · subst h
        simp [aLookup]
      · have hb : (k3 == k2) = false := beq_eq_false_iff_ne.mpr (fun he => h he.symm)
        simp [aLookup, hb, h]
    · have hb3 : (k3 == k) = false := beq_eq_false_iff_ne.mpr h3
      simp only [addValue, hb3, Bool.false_eq_true, if_neg, if_false]
      by_cases h : k2 = k3
      · subst h
        have hne : k2 ≠ k := fun he => h3 (he ▸ rfl)
        simp [aLookup, hne]
      · have hb : (k3 == k2) = false := beq_eq_false_iff_ne.mpr (fun he => h he.symm)
        simp only [aLookup, hb, Bool.false_eq_true, if_neg, if_false]
        exact ih k v k2

theorem contributionsAt_cons (letter : Char → Bool) (opts : GetPropertiesOptions)
    (r : Row) (rest : List Row) (k : String) :
    contributionsAt letter opts (r :: rest) k =
      (match contribution letter opts r with
       | some p =>
           if p.1 = k then p.2 :: contributionsAt letter opts rest k
           else contributionsAt letter opts rest k
       | none => contributionsAt letter opts rest k) := by
  unfold contributionsAt
  rw [List.filterMap_cons]
  cases hc : contribution letter opts r with
  | none => rfl
  | some p =>
    rw [List.filter_cons]
    by_cases h : p.1 = k
    · simp [h]
    · simp [h, beq_eq_false_iff_ne.mpr h]

theorem getProps_aux (letter : Char → Bool) (opts : GetPropertiesOptions) :
    ∀ (rows : List Row) (acc : List (String × List JsValue)) (k : String),
      aLookup (rows.foldl (processRow letter opts) acc) k =
        (match aLookup acc k with
         | some l => some (l ++ contributionsAt letter opts rows k)
         | none =>
             if (contributionsAt letter opts rows k).isEmpty then none
             else some (contributionsAt letter opts rows k)) := by
  intro rows
  induction rows with
  | nil =>
    intro acc k
    cases h : aLookup acc k <;> simp [contributionsAt, h]
  | cons r rest ih =>
    intro acc k
    rw [List.foldl_cons, ih, processRow_eq_contribution, contributionsAt_cons]
    cases hc : contribution letter opts r with
    | none => rfl
    | some p =>
      rw [aLookup_addValue]
      by_cases hpk : p.1 = k
      · cases h : aLookup acc k <;> simp [h, hpk]
      · have hkp : ¬(k = p.1) := fun he => hpk (Eq.symm he)
        cases h : aLookup acc k <;> simp [h, hpk, hkp]

/-- Claim C1: for every row list and every options value, the property
mapping built by Entity.getProperties is characterized per key by the
row-order list of surviving contributions: a key is present exactly when
that list is non-empty (so every present key maps to a non-empty list,
created as a singleton by its first surviving row and extended in row
order by later ones), and a row whose resolved value is null contributes
nothing (contribution returns none for it). -/
theorem getProperties_characterization (letter : Char → Bool)
    (opts : GetPropertiesOptions) (rows : List Row) (k : String) :
    aLookup (getProperties letter opts rows) k =
      (if (contributionsAt letter opts rows k).isEmpty then none
       else some (contributionsAt letter opts rows k)) := by
  have h := getProps_aux letter opts rows [] k
  simpa [getProperties, aLookup] using h

/-- The spec's value-resolution precedence list, one (guard, result)
rule per numbered clause 1-6; rule 7 is the default. -/
def specRules (opts : GetPropertiesOptions) (r : Row) : List (Bool × Option JsValue) :=
  [ (optStrTruthy r.normalizedValue, Option.map JsValue.str r.normalizedValue),
    (isDate r.valueType, some (JsValue.str r.value)),
    (isDecimal r.valueType, some (JsValue.floatOf r.value)),
    (isInteger r.valueType, some (JsValue.intOf r.value)),
    (isString r.valueType, some (JsValue.str r.value)),
    (endsQId r.value && optStrTruthy r.valueLabel,
      some (JsValue.str
        ("[[" ++
          buildLink opts.linkTemplate (r.valueLabel.getD "") (trailingDigits r.value)
          ++ "]]"))) ]

/-- First matching rule wins; when no rule matches the default applies. -/
def firstMatch : List (Bool × Option JsValue) → Option JsValue → Option JsValue
  | [], dflt => dflt
  | (g, v) :: rest, dflt => if g then v else firstMatch rest dflt

/-- Value resolution as worded by the spec: the ordered rule list with
first-match-wins, defaulting to the resolved label verbatim (null label:
none, which drops the row). -/
def resolveSpec (opts : GetPropertiesOptions) (r : Row) : Option JsValue :=
  firstMatch (specRules opts r) (Option.map JsValue.str r.valueLabel)

/-- Claim C5: the value-resolution chain of Entity.getProperties follows
exactly the spec's precedence list — normalized quantity verbatim, then
date (raw value), decimal (parseFloat), integer (parseInt),
string/lang-string (raw value), then the Q-digits cross-reference built
via the Link Builder from the trailing digit run, and otherwise the
resolved label, whose absence yields none and drops the row. -/
theorem resolveValue_eq_resolveSpec (opts : GetPropertiesOptions) (r : Row) :
    resolveValue opts r = resolveSpec opts r := by
  cases hn : r.normalizedValue <;> cases hl : r.valueLabel <;>
    simp [resolveValue, resolveSpec, specRules, firstMatch, optStrTruthy, hn, hl,
      Option.map]

/-- Claim C6: the Link Builder is a pure, deterministic function —
equal inputs yield equal output strings — and on the claim's concrete
input it sanitizes the label "A/B:C" to "A_B_C" (each filesystem-illegal
character replaced via the index-clamped replacement string) and returns
"db/A_B_C-42.md". -/
theorem buildLink_pure_and_concrete :
    (∀ (t l i t2 l2 i2 : String),
        t = t2 → l = l2 → i = i2 → buildLink t l i = buildLink t2 l2 i2) ∧
    replaceCharacters "A/B:C" "*/:#?<>\"" "_" = "A_B_C" ∧
    buildLink "db/$\x7blabel\x7d-$\x7bid\x7d.md" "A/B:C" "42" = "db/A_B_C-42.md" := by
  refine ⟨?_, by decide, by decide⟩
  intro t l i t2 l2 i2 h1 h2 h3
  rw [h1, h2, h3]

theorem buildLink_pure_and_concrete_witness :
    buildLink "db/$\x7blabel\x7d" "human" "5" = buildLink "db/$\x7blabel\x7d" "human" "5" :=
  buildLink_pure_and_concrete.1 _ _ _ _ _ _ rfl rfl rfl

/-- Options with a non-empty space replacement "_" and no label filters,
for exercising the key rewrite. -/
def optsC7 : GetPropertiesOptions :=
  ⟨"en", false, false, false, true, "db/$\x7blabel\x7d", "_"⟩

/-- A row whose property name "a  b" contains a run of two consecutive
non-letter characters and that survives with a plain string value. -/
def rowC7 : Row :=
  ⟨"a  b", "x", none, some "http://www.w3.org/2001/XMLSchema#string", none⟩

/-- Modelled from the spec sentence for the space replacement: every
maximal run of non-letter characters is replaced with a single
occurrence of the replacement string.  `inRun` records whether the
previous character was already part of a non-letter run. -/
def runReplaceAux (letter : Char → Bool) (rep : String) : Bool → List Char → List Char
  | _, [] => []
  | inRun, c :: rest =>
      if letter c then c :: runReplaceAux letter rep false rest
      else (if inRun then [] else rep.data) ++ runReplaceAux letter rep true rest

/-- Run-collapsing replacement, as the spec words it. -/
def runReplace (letter : Char → Bool) (rep : String) (s : String) : String :=
  String.mk (runReplaceAux letter rep false s.data)

/-- The key rewrite as claimed by the spec: maximal runs collapsed to a
single occurrence of the replacement. -/
def rewriteKeySpec (letter : Char → Bool) (opts : GetPropertiesOptions)
    (key : String) : String :=
  if opts.spaceReplacement.length > 0 then runReplace letter opts.spaceReplacement key
  else key

/-- Counterexample to claim C7 as stated: with replacement "_" the
extractor rewrites the key "a  b" (a maximal run of two spaces) to
"a__b" — one copy of the replacement per character — whereas replacing
every maximal run with a single occurrence, as the claim states, gives
"a_b". -/
theorem spaceReplacement_run_counterexample :
    getProperties (fun c => c.isAlpha) optsC7 [rowC7]
        = [("a__b", [JsValue.str "x"])] ∧
    rewriteKeySpec (fun c => c.isAlpha) optsC7 "a  b" = "a_b" ∧
    ("a__b" : String) ≠ "a_b" :=
  ⟨by decide, by decide, by decide⟩

/-- Claim C7 (amended): when a non-empty replacement string is
configured, the Property Extractor rewrites the property name by
replacing every individual non-letter character with one full occurrence
of the replacement string — so a maximal run of n non-letter characters
yields n concatenated copies, not a single one. -/
theorem rewriteKey_per_character (letter : Char → Bool) (opts : GetPropertiesOptions)
    (key : String) (h : opts.spaceReplacement.length > 0) :
    rewriteKey letter opts key =
      String.mk (key.data.flatMap
        (fun c => if letter c then [c] else opts.spaceReplacement.data)) := by
  rw [rewriteKey, if_pos h]
  congr 1
  induction key.data with
  | nil => rfl
  | cons c rest ih => simp only [regexReplaceChars, List.flatMap_cons, ih]

theorem rewriteKey_per_character_witness :
    rewriteKey (fun c => c.isAlpha) optsC7 "a-b" =
      String.mk ("a-b".data.flatMap
        (fun c => if c.isAlpha then [c] else optsC7.spaceReplacement.data)) :=
  rewriteKey_per_character (fun c => c.isAlpha) optsC7 "a-b" (by decide)

/-- Options with ID filtering enabled (and the other label filters
off). -/
def optsC8 : GetPropertiesOptions :=
  ⟨"en", false, false, true, true, "db/$\x7blabel\x7d", ""⟩

/-- A row whose property name matches the whole-word ID token but which
carries no resolved value label. -/
def rowC8 : Row :=
  ⟨"Freebase ID", "foo", none, some "http://www.w3.org/2001/XMLSchema#string", none⟩

/-- Counterexample to claim C8 as stated: ID filtering is enabled and
the property name "Freebase ID" contains "ID" as a whole word, yet the
row is not dropped — it contributes its string value to the mapping —
because it carries no resolved value label and the source guard
additionally requires a truthy label. -/
theorem idFilter_claim_counterexample :
    optsC8.ignoreIDs = true ∧
    hasWordID rowC8.propertyLabel = true ∧
    getProperties (fun c => c.isAlpha) optsC8 [rowC8]
      = [("Freebase ID", [JsValue.str "foo"])] :=
  ⟨rfl, by decide, by decide⟩

/-- Claim C8 (amended): when ID filtering is enabled, the row carries a
truthy (present, non-empty) resolved value label, and the property name
contains the token "ID" as a whole word, the Property Extractor drops
the row: it contributes nothing to the accumulated mapping. -/
theorem idFilter_drops_row (letter : Char → Bool) (opts : GetPropertiesOptions)
    (acc : List (String × List JsValue)) (r : Row)
    (hi : opts.ignoreIDs = true) (hl : optStrTruthy r.valueLabel = true)
    (hid : hasWordID r.propertyLabel = true) :
    processRow letter opts acc r = acc := by
  have hdrop : idDrop opts r = true := by simp [idDrop, hi, hl, hid]
  unfold processRow
  by_cases h1 : catDrop opts r = true
  · rw [if_pos h1]
  · rw [if_neg h1]
    by_cases h2 : wikiDrop opts r = true
    · rw [if_pos h2]
    · rw [if_neg h2, if_pos hdrop]

/-- A row like rowC8 but carrying a resolved value label. -/
def rowC8b : Row := ⟨"Freebase ID", "bar", some "some label", none, none⟩

theorem idFilter_drops_row_witness :
    processRow (fun c => c.isAlpha) optsC8 [] rowC8b = [] :=
  idFilter_drops_row (fun c => c.isAlpha) optsC8 [] rowC8b rfl (by decide) (by decide)

/-- Options with all three label filters enabled. -/
def optsC10 : GetPropertiesOptions :=
  ⟨"en", true, true, true, true, "db/$\x7blabel\x7d", ""⟩

/-- A row with a whole-word-ID property name and no resolved value
label. -/
def rowC10 : Row :=
  ⟨"Freebase ID", "foo", none, some "http://www.w3.org/2001/XMLSchema#string", none⟩

/-- Claim C10: each of the three label-based filter guards of the
Property Extractor (category, Wikipedia-page, whole-word ID) requires a
present value label: for a row whose resolved value label is absent all
three guards evaluate to false, whatever the option flags and the
property name — in particular a name containing whole-word "ID" survives
ID filtering when the row carries no label. -/
theorem filters_require_label (opts : GetPropertiesOptions) (r : Row)
    (h : r.valueLabel = none) :
    catDrop opts r = false ∧ wikiDrop opts r = false ∧ idDrop opts r = false := by
  refine ⟨?_, ?_, ?_⟩ <;> simp [catDrop, wikiDrop, idDrop, h, optStrTruthy]

theorem filters_require_label_witness :
    catDrop optsC10 rowC10 = false ∧ wikiDrop optsC10 rowC10 = false ∧
      idDrop optsC10 rowC10 = false :=
  filters_require_label optsC10 rowC10 rfl

/-- A response that lists the identifier Q1 twice. -/
def respC9 : SearchResponse := ⟨[⟨"Q1", some "one", none⟩, ⟨"Q1", some "un", none⟩]⟩

/-- A transport oracle that answers every request with respC9. -/
def transportC9 : SearchRequest → SearchResponse := fun _ => respC9

/-- Counterexample to claim C9 as stated: for the language specification
"en,fr" (two comma-separated codes) Entity.search issues exactly one
lookup request, not one per code, and performs no identifier
de-duplication: a response listing identifier Q1 twice yields two Q1
entries in the output list. -/
theorem search_claim_counterexample :
    (langCodes "en,fr").length = 2 ∧
    (Entity.searchRequests "x" ⟨"en,fr"⟩).length = 1 ∧
    ((Entity.search transportC9 "x" ⟨"en,fr"⟩).filter
        (fun e => e.id == "Q1")).length = 2 :=
  ⟨by decide, by decide, by decide⟩

/-- Claim C9 (amended): for a non-empty query, Entity Search issues
exactly one lookup request, carrying the entire language specification
verbatim (as both language and uselang), and returns the response's
entities converted in order without any identifier de-duplication: the
output identifiers equal the response identifiers (an empty query issues
no request and returns the empty list). -/
theorem search_single_request (transport : SearchRequest → SearchResponse)
    (query : String) (opts : SearchOptions) (h : ¬(query.length = 0)) :
    Entity.searchRequests query opts = [⟨opts.language, opts.language, query⟩] ∧
    (Entity.search transport query opts).map Entity.id
      = ((transport ⟨opts.language, opts.language, query⟩).search).map EntityJson.id := by
  constructor
  · rw [Entity.searchRequests, if_neg h]
  · rw [Entity.search, if_neg h, List.map_map]
    rfl

theorem search_single_request_witness :
    Entity.searchRequests "x" ⟨"en,fr"⟩ = [⟨"en,fr", "en,fr", "x"⟩] ∧
    (Entity.search transportC9 "x" ⟨"en,fr"⟩).map Entity.id
      = (respC9.search).map EntityJson.id :=
  search_single_request transportC9 "x" ⟨"en,fr"⟩ (by decide)

end WikidataImporter
